import Mathlib

/-!
Shallow embedding of the unitlab SDK (teamunitlab/unitlab-sdk) for checking the
natural-language specification against the code.

Conventions of the embedding:
* The local file system is passed explicitly (a directory listing is a
  `List DirFile`; a folder on disk is an association list from file name to
  contents).
* HTTP traffic is passed explicitly: a request is resolved by a caller-supplied
  function from URL to response status (`String → Nat`), and per-file pipeline
  steps take the status the server answered with.
* Fallible Python code (raise) becomes `Except`.
* Machine integers are `Nat`/`Int`; the one floating-point computation in the
  code (`os.path.getsize(file) / 1024 / 1024`) is modelled over `ℚ`, which is
  exact here because dividing an IEEE double by a power of two is exact.
-/

namespace Unitlab

/-! ## Generic association-list helpers

Python `dict` / on-disk folders / ConfigParser sections are modelled as
association lists from `String` keys to values, with `setKV` giving the
update-in-place-or-append behaviour of `dict.__setitem__` (ConfigParser.set
keeps the position of an existing key and appends a new one, and writing a file
into a folder overwrites an existing file of that name). -/

/-- Lookup of a key in an association list (first binding wins; `setKV` keeps
at most one binding per key, so this is the Python `dict` lookup). -/
def lookupKV (s : List (String × String)) (k : String) : Option String :=
  (s.find? (fun p => p.1 = k)).map (fun p => p.2)

/-- `s[k] = v` on an association list: replace the existing binding in place,
or append a new one. -/
def setKV (s : List (String × String)) (k v : String) : List (String × String) :=
  if s.any (fun p => p.1 = k) then
    s.map (fun p => if p.1 = k then (k, v) else p)
  else
    s ++ [(k, v)]

theorem find?_setKV_ne (t : List (String × String)) (k v q : String) (hqk : q ≠ k) :
    (t.map (fun p => if p.1 = k then (k, v) else p)).find? (fun p => p.1 = q)
      = t.find? (fun p => p.1 = q) := by
  have hkq : ¬ (k = q) := fun h => hqk h.symm
  induction t with
  | nil => rfl
  | cons p t ih =>
    rw [List.map_cons]
    by_cases hpk : p.1 = k
    · have hpq : ¬ (p.1 = q) := by rw [hpk]; exact hkq
      rw [if_pos hpk, List.find?_cons_of_neg _ (by simpa using hkq),
        List.find?_cons_of_neg _ (by simpa using hpq), ih]
    · rw [if_neg hpk]
      by_cases hpq : p.1 = q
      · rw [List.find?_cons_of_pos _ (by simpa using hpq),
          List.find?_cons_of_pos _ (by simpa using hpq)]
      · rw [List.find?_cons_of_neg _ (by simpa using hpq),
          List.find?_cons_of_neg _ (by simpa using hpq), ih]

theorem find?_setKV_eq (t : List (String × String)) (k v : String)
    (h : t.any (fun p => p.1 = k)) :
    (t.map (fun p => if p.1 = k then (k, v) else p)).find? (fun p => p.1 = k)
      = some (k, v) := by
  induction t with
  | nil => simp at h
  | cons p t ih =>
    by_cases hpk : p.1 = k
    · simp [hpk]
    · have h' : t.any (fun p => p.1 = k) := by
        simp only [List.any_cons] at h
        simpa [hpk] using h
      simpa [hpk] using ih h'

theorem find?_none_of_not_any (t : List (String × String)) (k : String)
    (h : ¬ t.any (fun p => p.1 = k)) :
    t.find? (fun p => p.1 = k) = none := by
  rw [List.find?_eq_none]
  intro p hp
  simp only [List.any_eq_true, not_exists, not_and] at h
  intro hc
  exact absurd hc (by simpa using h p hp)

/-- The dictionary-update law: after `setKV s k v`, looking up `k` gives `v`
and looking up any other key is unchanged. -/
theorem lookupKV_setKV (s : List (String × String)) (k v q : String) :
    lookupKV (setKV s k v) q = if q = k then some v else lookupKV s q := by
  unfold setKV lookupKV
  by_cases hany : s.any (fun p => p.1 = k)
  · rw [if_pos hany]
    by_cases hqk : q = k
    · subst hqk
      rw [find?_setKV_eq s q v hany]
      simp
    · rw [find?_setKV_ne s k v q hqk, if_neg hqk]
  · rw [if_neg hany, List.find?_append]
    by_cases hqk : q = k
    · subst hqk
      rw [find?_none_of_not_any s q hany]
      simp
    · have hkq : ¬ (k = q) := fun h => hqk h.symm
      have h2 : List.find? (fun p => p.1 = q) [(k, v)] = none := by simp [hkq]
      rw [h2, if_neg hqk]
      simp

/-! ## utils.send_request (src/unitlab/utils.py)

The wrapper resolves an endpoint against up to three hosts: the cached
`UNITLAB_BASE_URL` environment value (if any), then `https://api.unitlab.ai`,
then — only after a 401 from the default host — `https://api-enterprise.unitlab.ai`.
HTTP traffic is modelled by a function `respond : String → Nat` from full URL to
response status.  `requests.Response.ok` is `status < 400 ∨ 600 ≤ status`, and
`raise_for_status` raises exactly on `400 ≤ status < 600`. -/

/-- The error a `send_request` call can raise: `AuthenticationError("Invalid API key")`
or the `requests.HTTPError` from `raise_for_status` (carrying the status). -/
inductive SendErr where
  | auth : SendErr
  | http : Nat → SendErr
deriving DecidableEq

def defaultHost : String := "https://api.unitlab.ai"

def enterpriseHost : String := "https://api-enterprise.unitlab.ai"

/-- `requests.Response.ok`: true iff `raise_for_status` would not raise. -/
def respOk (s : Nat) : Bool := !(decide (400 ≤ s) && decide (s < 600))

/-- `utils.send_request`, returning the URL the final response came from and its
status on success.  `env` is `os.environ.get("UNITLAB_BASE_URL")`. -/
def send_request (env : Option String) (respond : String → Nat) (endpoint : String) :
    Except SendErr (String × Nat) :=
  let tryHosts : Except SendErr (String × Nat) :=
    let s1 := respond (defaultHost ++ endpoint)
    if respOk s1 then Except.ok (defaultHost ++ endpoint, s1)
    else if s1 = 401 then
      let s2 := respond (enterpriseHost ++ endpoint)
      if respOk s2 then Except.ok (enterpriseHost ++ endpoint, s2)
      else if s2 = 401 then Except.error SendErr.auth
      else Except.error (SendErr.http s2)
    else Except.error (SendErr.http s1)
  match env with
  | some base =>
      let s0 := respond (base ++ endpoint)
      if respOk s0 then Except.ok (base ++ endpoint, s0) else tryHosts
  | none => tryHosts

/-- The status of the last host attempted once the default host is reached:
the default host's answer, or — after a 401 there — the enterprise host's. -/
def lastStatus (respond : String → Nat) (endpoint : String) : Nat :=
  if respond (defaultHost ++ endpoint) = 401 then respond (enterpriseHost ++ endpoint)
  else respond (defaultHost ++ endpoint)

/-- The URL of the last host attempted once the default host is reached. -/
def lastUrl (respond : String → Nat) (endpoint : String) : String :=
  if respond (defaultHost ++ endpoint) = 401 then enterpriseHost ++ endpoint
  else defaultHost ++ endpoint

/-- Claim C2: `send_request` maps HTTP status codes to error kinds: it raises
`AuthenticationError("Invalid API key")` iff the last host attempted (the
default host, or the enterprise host after a 401 from the default host)
responds with status 401; any other non-OK final status raises the underlying
HTTP error via `raise_for_status`; and an OK response is returned unchanged
(including an OK response from the cached `UNITLAB_BASE_URL` host). -/
theorem send_request_status_mapping (env : Option String) (respond : String → Nat)
    (endpoint : String) :
    (∀ base, env = some base → respOk (respond (base ++ endpoint)) →
        send_request env respond endpoint =
          Except.ok (base ++ endpoint, respond (base ++ endpoint)))
    ∧ ((env = none ∨ ∀ base, env = some base → ¬ respOk (respond (base ++ endpoint))) →
        ((send_request env respond endpoint = Except.error SendErr.auth ↔
            lastStatus respond endpoint = 401)
          ∧ (respOk (lastStatus respond endpoint) →
              send_request env respond endpoint =
                Except.ok (lastUrl respond endpoint, lastStatus respond endpoint))
          ∧ (¬ respOk (lastStatus respond endpoint) →
              lastStatus respond endpoint ≠ 401 →
              send_request env respond endpoint =
                Except.error (SendErr.http (lastStatus respond endpoint))))) := by
  have main : (send_request none respond endpoint = Except.error SendErr.auth ↔
        lastStatus respond endpoint = 401)
      ∧ (respOk (lastStatus respond endpoint) →
          send_request none respond endpoint =
            Except.ok (lastUrl respond endpoint, lastStatus respond endpoint))
      ∧ (¬ respOk (lastStatus respond endpoint) →
          lastStatus respond endpoint ≠ 401 →
          send_request none respond endpoint =
            Except.error (SendErr.http (lastStatus respond endpoint))) := by
    unfold send_request lastStatus lastUrl
    by_cases h1 : respOk (respond (defaultHost ++ endpoint))
    · have h401 : respond (defaultHost ++ endpoint) ≠ 401 := by
        intro hc
        rw [hc] at h1
        simp [respOk] at h1
      simp [h1, h401]
    · by_cases h1e : respond (defaultHost ++ endpoint) = 401
      · have hko : respOk 401 = false := by decide
        by_cases h2 : respOk (respond (enterpriseHost ++ endpoint))
        · have h2ne : respond (enterpriseHost ++ endpoint) ≠ 401 := by
            intro hc
            rw [hc] at h2
            simp [respOk] at h2
          simp [h1, h1e, h2, h2ne, hko]
        · by_cases h2e : respond (enterpriseHost ++ endpoint) = 401
          · simp [h1, h1e, h2, h2e, hko]
          · simp [h1, h1e, h2, h2e, hko]
      · simp [h1, h1e]
  match env with
  | none =>
      refine ⟨by intro base hb; exact absurd hb (by simp), fun _ => main⟩
  | some base =>
      constructor
      · intro b hb hok
        have hbb : b = base := by injection hb.symm
        subst hbb
        simp only [send_request]
        rw [if_pos hok]
      · intro hno
        have hnok : ¬ respOk (respond (base ++ endpoint)) := by
          rcases hno with h | h
          · exact absurd h (by simp)
          · exact h base rfl
        have hrw : send_request (some base) respond endpoint =
            send_request none respond endpoint := by
          simp only [send_request]
          rw [if_neg hnok]
        rw [hrw]
        exact main

/-- Witness for C2: a server answering 401 on every host makes `send_request`
raise `AuthenticationError`, and a server answering 200 is returned unchanged. -/
theorem send_request_status_mapping_witness :
    send_request none (fun _ => 401) "/api/check/" = Except.error SendErr.auth
      ∧ send_request none (fun _ => 200) "/api/check/" =
          Except.ok (defaultHost ++ "/api/check/", 200) := by
  constructor
  · exact ((send_request_status_mapping none (fun _ => 401) "/api/check/").2
      (Or.inl rfl)).1.mpr (by decide)
  · exact ((send_request_status_mapping none (fun _ => 200) "/api/check/").2
      (Or.inl rfl)).2.1 (by decide)

/-! ## UnitlabClient.project_upload_data — file discovery and size filter
(src/unitlab/client.py)

The directory is modelled as its listing, a `List DirFile` of names with sizes
in bytes.  `glob.glob(dir + "*jpg")` etc. keep the listing's order within each
pattern and concatenate the four patterns' results; a `*`-pattern never matches
a name starting with a dot. -/

/-- A file of the local directory: its name and its size in bytes. -/
structure DirFile where
  name : String
  size : Nat
deriving DecidableEq

/-- Python's `str.endswith`, computed over the character lists (Lean's
`String.endsWith` does not reduce in the kernel). -/
def strEndsWith (s t : String) : Bool := t.data.isSuffixOf s.data

/-- Whether a file name is hidden (starts with a dot). -/
def strHeadDot (s : String) : Bool :=
  match s.data with
  | [] => false
  | c :: _ => c = '.'

/-- `glob` match of the pattern `*<ext>` against a file name: the name ends
with `ext`, and the leading `*` does not match a hidden (dot-initial) name. -/
def globMatch (name ext : String) : Bool :=
  !(strHeadDot name) && strEndsWith name ext

/-- The four patterns of `project_upload_data`, in source order. -/
def uploadExts : List String := ["jpg", "png", "jpeg", "webp"]

/-- The `files` list of `project_upload_data`: all glob results concatenated
pattern by pattern. -/
def discoverFiles (listing : List DirFile) : List DirFile :=
  (uploadExts.map (fun ext => listing.filter (fun f => globMatch f.name ext))).flatten

/-- The size test of `project_upload_data`: `os.path.getsize(file) / 1024 / 1024 > 6`.
The two float divisions by 1024 are exact, so the test is computed in `ℚ`. -/
def fileTooLarge (f : DirFile) : Bool :=
  decide ((f.size : ℚ) / 1024 / 1024 > 6)

/-- The `filtered_files` loop: discovered files that pass the size test, in order. -/
def filteredFiles (listing : List DirFile) : List DirFile :=
  (discoverFiles listing).filter (fun f => !fileTooLarge f)

/-- The files the loop skips with a `logger.warning` (too large). -/
def skippedFiles (listing : List DirFile) : List DirFile :=
  (discoverFiles listing).filter fileTooLarge

/-- `project_upload_data` up to the point where the filtered list is fixed:
`ValueError` when the directory does not exist, otherwise the upload list. -/
def project_upload_select (dirExists : Bool) (listing : List DirFile) :
    Except String (List DirFile) :=
  if dirExists then Except.ok (filteredFiles listing)
  else Except.error "Directory does not exist"

/-- The rational size test agrees with the integer bound: a file is "too
large" exactly when it exceeds 6 * 1024 * 1024 bytes. -/
theorem fileTooLarge_iff (f : DirFile) :
    fileTooLarge f = decide (6 * 1024 * 1024 < f.size) := by
  unfold fileTooLarge
  rcases Nat.lt_or_ge (6 * 1024 * 1024) f.size with h | h
  · have hq : (6 : ℚ) < (f.size : ℚ) / 1024 / 1024 := by
      rw [div_div, lt_div_iff (by norm_num)]
      calc (6 : ℚ) * (1024 * 1024) = ((6 * 1024 * 1024 : Nat) : ℚ) := by norm_num
        _ < (f.size : ℚ) := by exact_mod_cast h
    simp [hq, h]
  · have hq : ¬ ((6 : ℚ) < (f.size : ℚ) / 1024 / 1024) := by
      rw [div_div, lt_div_iff (by norm_num), not_lt]
      calc (f.size : ℚ) ≤ ((6 * 1024 * 1024 : Nat) : ℚ) := by exact_mod_cast h
        _ = (6 : ℚ) * (1024 * 1024) := by norm_num
    rw [decide_eq_false hq, decide_eq_false (by omega)]

/-- Claim C3: `project_upload_data` raises `ValueError` when the directory does
not exist; otherwise it selects for upload exactly the listed files matching a
pattern among `*jpg`, `*png`, `*jpeg`, `*webp` whose size is at most
6 MB (6 * 1024 * 1024 bytes), and every matched file above that bound lands in
the warned-and-skipped list, not in the upload list. -/
theorem project_upload_select_spec (dirExists : Bool) (listing : List DirFile)
    (f : DirFile) :
    (dirExists = false →
        project_upload_select dirExists listing =
          Except.error "Directory does not exist")
    ∧ (dirExists = true →
        project_upload_select dirExists listing = Except.ok (filteredFiles listing))
    ∧ (f ∈ filteredFiles listing ↔
        f ∈ listing ∧ (∃ ext ∈ uploadExts, globMatch f.name ext) ∧
          f.size ≤ 6 * 1024 * 1024)
    ∧ (f ∈ listing → (∃ ext ∈ uploadExts, globMatch f.name ext) →
        6 * 1024 * 1024 < f.size →
          f ∈ skippedFiles listing ∧ f ∉ filteredFiles listing) := by
  have hdisc : f ∈ discoverFiles listing ↔
      f ∈ listing ∧ ∃ ext ∈ uploadExts, globMatch f.name ext := by
    unfold discoverFiles
    rw [List.mem_flatten]
    constructor
    · rintro ⟨l, hl, hfl⟩
      rw [List.mem_map] at hl
      obtain ⟨ext, hext, rfl⟩ := hl
      rw [List.mem_filter] at hfl
      exact ⟨hfl.1, ext, hext, hfl.2⟩
    · rintro ⟨hfl, ext, hext, hm⟩
      exact ⟨listing.filter (fun f => globMatch f.name ext),
        List.mem_map.mpr ⟨ext, hext, rfl⟩, List.mem_filter.mpr ⟨hfl, hm⟩⟩
  refine ⟨fun h => by simp [project_upload_select, h],
    fun h => by simp [project_upload_select, h], ?_, ?_⟩
  · unfold filteredFiles
    rw [List.mem_filter, hdisc, fileTooLarge_iff]
    constructor
    · rintro ⟨⟨h1, h2⟩, h3⟩
      refine ⟨h1, h2, ?_⟩
      simp only [Bool.not_eq_true', decide_eq_false_iff_not, not_lt] at h3
      exact h3
    · rintro ⟨h1, h2, h3⟩
      refine ⟨⟨h1, h2⟩, ?_⟩
      simp only [Bool.not_eq_true', decide_eq_false_iff_not, not_lt]
      exact h3
  · intro h1 h2 h3
    constructor
    · unfold skippedFiles
      rw [List.mem_filter, hdisc, fileTooLarge_iff]
      exact ⟨⟨h1, h2⟩, by simpa using h3⟩
    · unfold filteredFiles
      rw [List.mem_filter, fileTooLarge_iff]
      rintro ⟨-, hc⟩
      simp only [Bool.not_eq_true', decide_eq_false_iff_not, not_lt] at hc
      omega

/-- Witness for C3 on a concrete listing: `a.jpg` (100 B) is uploaded, the
7 MB `b.png` is skipped, and `c.txt` is not discovered at all. -/
theorem project_upload_select_spec_witness :
    project_upload_select true
        [⟨"a.jpg", 100⟩, ⟨"b.png", 7000000⟩, ⟨"c.txt", 5⟩] =
      Except.ok [⟨"a.jpg", 100⟩]
    ∧ (⟨"b.png", 7000000⟩ : DirFile) ∈
        skippedFiles [⟨"a.jpg", 100⟩, ⟨"b.png", 7000000⟩, ⟨"c.txt", 5⟩] := by
  constructor
  · rw [(project_upload_select_spec true
      [⟨"a.jpg", 100⟩, ⟨"b.png", 7000000⟩, ⟨"c.txt", 5⟩] ⟨"a.jpg", 100⟩).2.1 rfl]
    have hd : discoverFiles [⟨"a.jpg", 100⟩, ⟨"b.png", 7000000⟩, ⟨"c.txt", 5⟩] =
        [⟨"a.jpg", 100⟩, ⟨"b.png", 7000000⟩] := by decide
    have h1 : fileTooLarge ⟨"a.jpg", 100⟩ = false := by rw [fileTooLarge_iff]; decide
    have h2 : fileTooLarge ⟨"b.png", 7000000⟩ = true := by rw [fileTooLarge_iff]; decide
    have hf : filteredFiles [⟨"a.jpg", 100⟩, ⟨"b.png", 7000000⟩, ⟨"c.txt", 5⟩] =
        [⟨"a.jpg", 100⟩] := by
      unfold filteredFiles
      rw [hd]
      simp [List.filter_cons, h1, h2]
    rw [hf]
  · exact ((project_upload_select_spec true
      [⟨"a.jpg", 100⟩, ⟨"b.png", 7000000⟩, ⟨"c.txt", 5⟩] ⟨"b.png", 7000000⟩).2.2.2
      (by decide) (⟨"png", by decide, by decide⟩) (by decide)).1

/-! ## UnitlabClient.project_upload_data — batching (src/unitlab/client.py)

`main()` iterates `for i in range(num_batches)` and posts the slice
`filtered_files[i * batch_size : min((i + 1) * batch_size, num_files)]`,
awaiting every task of a batch (`asyncio.as_completed` loop) before the next
loop iteration builds the next batch.  The sequential list of batches below is
therefore the faithful order of the pipeline: batch `i` is fully awaited before
batch `i + 1` starts. -/

/-- Python list slice `l[a:c]` (for `a ≤ c ≤ len(l)`, which is how the code
calls it; `Nat` truncation matches Python's clamping for the general case). -/
def pySlice {α : Type} (l : List α) (a c : Nat) : List α :=
  (l.drop a).take (c - a)

/-- `num_batches = (num_files + batch_size - 1) // batch_size`. -/
def numBatches (n b : Nat) : Nat := (n + b - 1) / b

/-- The batches of `project_upload_data.main`, in iteration order. -/
def uploadBatches {α : Type} (files : List α) (b : Nat) : List (List α) :=
  (List.range (numBatches files.length b)).map
    (fun i => pySlice files (i * b) (min ((i + 1) * b) files.length))

theorem pySlice_eq_take {α : Type} (l : List α) (i b : Nat) :
    pySlice l (i * b) (min ((i + 1) * b) l.length) = (l.drop (i * b)).take b := by
  unfold pySlice
  have hc : min ((i + 1) * b) l.length - i * b = min b (l.length - i * b) := by
    rcases Nat.le_total ((i + 1) * b) l.length with h | h
    · rw [Nat.min_eq_left h]
      have : i * b + b ≤ l.length := by
        calc i * b + b = (i + 1) * b := by ring
          _ ≤ l.length := h
      rw [Nat.min_eq_left (by omega)]
      have : (i + 1) * b = i * b + b := by ring
      omega
    · rw [Nat.min_eq_right h]
      have h2 : (i + 1) * b = i * b + b := by ring
      rcases Nat.le_total b (l.length - i * b) with h3 | h3
      · rw [Nat.min_eq_left h3]
        omega
      · rw [Nat.min_eq_right h3]
  rw [hc, ← List.length_drop]
  calc (l.drop (i * b)).take (min b (l.drop (i * b)).length)
      = (l.drop (i * b)).take (b ⊓ (l.drop (i * b)).length) := rfl
    _ = ((l.drop (i * b)).take (l.drop (i * b)).length).take b := by
        rw [List.take_take]
    _ = (l.drop (i * b)).take b := by rw [List.take_length]

theorem numBatches_zero (b : Nat) (hb : 0 < b) : numBatches 0 b = 0 := by
  unfold numBatches
  exact Nat.div_eq_of_lt (by omega)

theorem numBatches_succ (n b : Nat) (hb : 0 < b) (hn : 0 < n) :
    numBatches n b = numBatches (n - b) b + 1 := by
  unfold numBatches
  obtain ⟨m, rfl⟩ : ∃ m, n = m + 1 := ⟨n - 1, by omega⟩
  have h1 : m + 1 + b - 1 = m + b := by omega
  rw [h1, Nat.add_div_right _ hb]
  rcases Nat.le_total (m + 1) b with h | h
  · have h2 : m + 1 - b = 0 := by omega
    rw [h2, Nat.zero_add]
    have h3 : (b - 1) / b = 0 := Nat.div_eq_of_lt (by omega)
    have h4 : m / b = 0 := Nat.div_eq_of_lt (by omega)
    omega
  · have h2 : m + 1 - b + b - 1 = m := by omega
    rw [h2]

/-- The take-`b` normal form of `uploadBatches`. -/
def takeBatches {α : Type} (files : List α) (b : Nat) : List (List α) :=
  (List.range (numBatches files.length b)).map (fun i => (files.drop (i * b)).take b)

theorem uploadBatches_eq_takeBatches {α : Type} (files : List α) (b : Nat) :
    uploadBatches files b = takeBatches files b := by
  unfold uploadBatches takeBatches
  exact List.map_congr_left (fun i _ => pySlice_eq_take files i b)

theorem takeBatches_cons {α : Type} (files : List α) (b : Nat) (hb : 0 < b)
    (hne : files ≠ []) :
    takeBatches files b = files.take b :: takeBatches (files.drop b) b := by
  unfold takeBatches
  have hn : 0 < files.length := List.length_pos.mpr hne
  rw [List.length_drop, numBatches_succ files.length b hb hn,
    List.range_succ_eq_map, List.map_cons, List.map_map]
  simp only [Nat.zero_mul, List.drop_zero]
  congr 1
  refine List.map_congr_left (fun i _ => ?_)
  simp only [Function.comp_apply]
  rw [List.drop_drop, Nat.succ_mul, Nat.add_comm b (i * b)]

theorem takeBatches_flatten {α : Type} (b : Nat) (hb : 0 < b) :
    ∀ n (files : List α), files.length ≤ n → (takeBatches files b).flatten = files := by
  intro n
  induction n with
  | zero =>
    intro files hlen
    have : files = [] := List.length_eq_zero.mp (by omega)
    subst this
    simp [takeBatches, numBatches_zero b hb]
  | succ n ih =>
    intro files hlen
    rcases eq_or_ne files [] with rfl | hne
    · simp [takeBatches, numBatches_zero b hb]
    · rw [takeBatches_cons files b hb hne, List.flatten_cons]
      have hdrop : (files.drop b).length ≤ n := by
        rw [List.length_drop]
        have hn : 0 < files.length := List.length_pos.mpr hne
        omega
      rw [ih (files.drop b) hdrop, List.take_append_drop]

/-- Claim C4: for a filtered list of `n` files and `batch_size` `b > 0`,
`project_upload_data` forms `⌈n / b⌉` batches, batch `i` being the slice
`files[i*b : min((i+1)*b, n)]`; every batch has at most `b` files, the batches
concatenate back to the file list in order (so every file is uploaded in
exactly one batch), and the batch list order is the await order: all uploads
of a batch complete before the next batch's uploads are created. -/
theorem uploadBatches_partition {α : Type} [DecidableEq α] (files : List α)
    (b : Nat) (hb : 0 < b) :
    (uploadBatches files b).length = (files.length + b - 1) / b
    ∧ (∀ i (h : i < (uploadBatches files b).length),
        (uploadBatches files b).get ⟨i, h⟩ =
          pySlice files (i * b) (min ((i + 1) * b) files.length))
    ∧ (∀ batch ∈ uploadBatches files b, batch.length ≤ b)
    ∧ (uploadBatches files b).flatten = files
    ∧ (∀ f : α, ((uploadBatches files b).map (fun batch => batch.count f)).sum =
        files.count f) := by
  have hflat : (uploadBatches files b).flatten = files := by
    rw [uploadBatches_eq_takeBatches]
    exact takeBatches_flatten b hb files.length files le_rfl
  refine ⟨?_, ?_, ?_, hflat, ?_⟩
  · simp [uploadBatches, numBatches]
  · intro i h
    simp [uploadBatches]
  · intro batch hbatch
    rw [uploadBatches_eq_takeBatches] at hbatch
    unfold takeBatches at hbatch
    rw [List.mem_map] at hbatch
    obtain ⟨i, -, rfl⟩ := hbatch
    rw [List.length_take]
    exact min_le_left _ _
  · intro f
    have h2 : (List.map (List.count f) (uploadBatches files b)).sum
        = List.count f (uploadBatches files b).flatten :=
      (List.count_flatten f (uploadBatches files b)).symm
    rw [hflat] at h2
    exact h2

/-- Witness for C4: five files with batch size 2 form the batches
`[[0,1],[2,3],[4]]`. -/
theorem uploadBatches_partition_witness :
    uploadBatches [0, 1, 2, 3, 4] 2 = [[0, 1], [2, 3], [4]]
      ∧ ([[0, 1], [2, 3], [4]] : List (List Nat)).flatten = [0, 1, 2, 3, 4] := by
  refine ⟨by decide, ?_⟩
  have h := (uploadBatches_partition [0, 1, 2, 3, 4] 2 (by decide)).2.2.2.1
  have he : uploadBatches [0, 1, 2, 3, 4] 2 = [[0, 1], [2, 3], [4]] := by decide
  rw [he] at h
  exact h

/-! ## COCO.createIndex — the id → entity maps (src/unitlab/dataset.py)

`createIndex` fills Python dicts by iterating the dataset lists in order and
assigning `d[entity["id"]] = entity`; on duplicate ids the later entry
overwrites the earlier one, which is modelled by `lookupLast` (a `find?` over
the reversed list).  `imgToAnns` and `catToImgs` are `defaultdict(list)`
appends, i.e. order-preserving filters of the annotation list. -/

/-- A COCO category: `{"id": ..., "name": ...}`. -/
structure Cat where
  id : Nat
  name : String
deriving DecidableEq

/-- A COCO image entry: `{"id": ..., "file_name": ...}`. -/
structure Img where
  id : Nat
  file_name : String
deriving DecidableEq

/-- A COCO annotation entry (the fields `createIndex` and the payload
builders read: `id`, `image_id`, `category_id`, `bbox` as x/y/w/h,
`recognition`, `segmentation`).  COCO coordinates may be floats; the payload
builder only forms `x + w` and `y + h`, so they are modelled as integers. -/
structure Ann where
  id : Nat
  image_id : Nat
  category_id : Nat
  x : Int
  y : Int
  w : Int
  h : Int
  recognition : String
  segmentation : List Nat
deriving DecidableEq

/-- Lookup in a dict built by `for e in l: d[key e] = e` — the LAST entry of
`l` with the given key wins. -/
def lookupLast {α : Type} (key : α → Nat) (l : List α) (i : Nat) : Option α :=
  l.reverse.find? (fun x => key x = i)

/-- `self.anns` after `createIndex`. -/
def annsIndex (anns : List Ann) : Nat → Option Ann := lookupLast (fun a => a.id) anns

/-- `self.imgs` after `createIndex`. -/
def imgsIndex (imgs : List Img) : Nat → Option Img := lookupLast (fun m => m.id) imgs

/-- `self.cats` after `createIndex`. -/
def catsIndex (cats : List Cat) : Nat → Option Cat := lookupLast (fun c => c.id) cats

/-- `self.imgToAnns[i]` after `createIndex`: the annotation entries with
`image_id = i`, in dataset order (defaultdict-append). -/
def imgToAnns (anns : List Ann) (i : Nat) : List Ann :=
  anns.filter (fun a => a.image_id = i)

/-- `self.catToImgs[c]` after `createIndex`: the `image_id`s of the annotation
entries with `category_id = c`, in dataset order. -/
def catToImgs (anns : List Ann) (c : Nat) : List Nat :=
  (anns.filter (fun a => a.category_id = c)).map (fun a => a.image_id)

/-- A last-wins dict lookup returns each entry when the keys are distinct. -/
theorem lookupLast_nodup {α : Type} (key : α → Nat) (l : List α)
    (hnd : (l.map key).Nodup) (x : α) (hx : x ∈ l) :
    lookupLast key l (key x) = some x := by
  unfold lookupLast
  induction l with
  | nil => simp at hx
  | cons y ys ih =>
    rw [List.map_cons, List.nodup_cons] at hnd
    rw [List.reverse_cons, List.find?_append]
    rcases List.mem_cons.mp hx with rfl | hmem
    · have hnone : ys.reverse.find? (fun z => key z = key x) = none := by
        rw [List.find?_eq_none]
        intro z hz
        simp only [decide_eq_true_eq]
        intro hc
        exact hnd.1 (by
          rw [← hc]
          exact List.mem_map_of_mem key (List.mem_reverse.mp hz))
      rw [hnone]
      simp
    · rw [ih hnd.2 hmem]
      simp

/-- Claim C6 (amended): after `createIndex`, every annotation `a` is a member
of `imgToAnns[a.image_id]` and `a.image_id` is a member of
`catToImgs[a.category_id]`, unconditionally; and provided ids are unique per
entity kind, `anns[a.id] = a`, `imgs[m.id] = m` and `cats[c.id] = c`. -/
theorem createIndex_maps (anns : List Ann) (imgs : List Img) (cats : List Cat) :
    (∀ a ∈ anns, a ∈ imgToAnns anns a.image_id)
    ∧ (∀ a ∈ anns, a.image_id ∈ catToImgs anns a.category_id)
    ∧ ((anns.map (fun a => a.id)).Nodup → ∀ a ∈ anns, annsIndex anns a.id = some a)
    ∧ ((imgs.map (fun m => m.id)).Nodup → ∀ m ∈ imgs, imgsIndex imgs m.id = some m)
    ∧ ((cats.map (fun c => c.id)).Nodup → ∀ c ∈ cats, catsIndex cats c.id = some c) := by
  refine ⟨?_, ?_, ?_, ?_, ?_⟩
  · intro a ha
    unfold imgToAnns
    rw [List.mem_filter]
    exact ⟨ha, by simp⟩
  · intro a ha
    unfold catToImgs
    rw [List.mem_map]
    exact ⟨a, List.mem_filter.mpr ⟨ha, by simp⟩, rfl⟩
  · intro hnd a ha
    exact lookupLast_nodup (fun a => a.id) anns hnd a ha
  · intro hnd m hm
    exact lookupLast_nodup (fun m => m.id) imgs hnd m hm
  · intro hnd c hc
    exact lookupLast_nodup (fun c => c.id) cats hnd c hc

/-- Witness for C6 on a concrete dataset with distinct ids. -/
theorem createIndex_maps_witness :
    annsIndex [⟨1, 10, 5, 0, 0, 2, 2, "", []⟩, ⟨2, 10, 6, 0, 0, 2, 2, "", []⟩] 2 =
        some ⟨2, 10, 6, 0, 0, 2, 2, "", []⟩
      ∧ imgsIndex [⟨10, "a.jpg"⟩] 10 = some ⟨10, "a.jpg"⟩
      ∧ catsIndex [⟨5, "cat"⟩, ⟨6, "dog"⟩] 6 = some ⟨6, "dog"⟩ := by
  refine ⟨?_, ?_, ?_⟩
  · exact (createIndex_maps
      [⟨1, 10, 5, 0, 0, 2, 2, "", []⟩, ⟨2, 10, 6, 0, 0, 2, 2, "", []⟩] [] []).2.2.1
      (by decide) ⟨2, 10, 6, 0, 0, 2, 2, "", []⟩ (by simp)
  · exact (createIndex_maps [] [⟨10, "a.jpg"⟩] []).2.2.2.1
      (by decide) ⟨10, "a.jpg"⟩ (by simp)
  · exact (createIndex_maps [] [] [⟨5, "cat"⟩, ⟨6, "dog"⟩]).2.2.2.2
      (by decide) ⟨6, "dog"⟩ (by simp)

/-- Counterexample for C6 as stated: with two annotation entries sharing
id 1, the dict build keeps only the later one, so `anns[a.id] = a` fails for
the earlier entry (`a` with `image_id = 10`). -/
theorem createIndex_maps_counterexample :
    (⟨1, 10, 5, 0, 0, 2, 2, "", []⟩ : Ann) ∈
        [(⟨1, 10, 5, 0, 0, 2, 2, "", []⟩ : Ann), ⟨1, 11, 5, 0, 0, 2, 2, "", []⟩]
      ∧ annsIndex [⟨1, 10, 5, 0, 0, 2, 2, "", []⟩, ⟨1, 11, 5, 0, 0, 2, 2, "", []⟩] 1 ≠
          some ⟨1, 10, 5, 0, 0, 2, 2, "", []⟩ := by
  constructor
  · simp
  · intro h
    have h2 : annsIndex [⟨1, 10, 5, 0, 0, 2, 2, "", []⟩, ⟨1, 11, 5, 0, 0, 2, 2, "", []⟩] 1 =
        some ⟨1, 11, 5, 0, 0, 2, 2, "", []⟩ := rfl
    rw [h2] at h
    simp [Ann.mk.injEq] at h

/-! ## COCO.createIndex — category remapping (src/unitlab/dataset.py)

```python
self.categories = sorted(copy.deepcopy(self.loadCats(self.getCatIds())),
                         key=lambda x: x["id"])
self.classes = [cat["name"] for cat in self.categories]
self.original_category_referecences = dict()
for i, category in enumerate(self.categories):
    self.original_category_referecences[category["id"]] = i
    category["id"] = i
```

`loadCats(getCatIds())` is `[self.cats[id] for id in ids]` — with duplicate
category ids, several list positions are the SAME dict object (`self.cats`
holds one object per id, and `copy.deepcopy` of the list preserves that
aliasing through its memo table).  The mutation loop is therefore modelled by
a store keyed by the pre-mutation (original) id: two positions alias exactly
when their original ids are equal.  `remapAux i cur refs keys` runs the loop
from position `i` with the store `cur` (original id ↦ current value of the
object's `"id"` field) and the dict `refs`; Python's `sorted` is a stable
sort, modelled by `List.insertionSort` on the id key. -/

/-- Python's stable `sorted(..., key=lambda x: x["id"])`. -/
def sortById (cats : List Cat) : List Cat :=
  List.insertionSort (fun a b => a.id ≤ b.id) cats

/-- `self.getCatIds()` with no filters: the ids of the dataset's categories. -/
def getCatIds (cats : List Cat) : List Nat := cats.map (fun c => c.id)

/-- `self.loadCats(self.getCatIds())`: one entry per listed id, looked up in
the `self.cats` dict (so on duplicate ids the last category with that id
appears at every position of that id). -/
def loadCatsAll (cats : List Cat) : List Cat :=
  (getCatIds cats).filterMap (catsIndex cats)

/-- `self.categories` right after the `sorted` line, before the mutation loop. -/
def selectSorted (cats : List Cat) : List Cat := sortById (loadCatsAll cats)

/-- The `for i, category in enumerate(...)` loop: `cur` maps each object's
original id to the current value of its `"id"` field, `refs` is the dict
`original_category_referecences` under construction. -/
def remapAux (i : Nat) (cur : Nat → Nat) (refs : Nat → Option Nat) :
    List Nat → ((Nat → Nat) × (Nat → Option Nat))
  | [] => (cur, refs)
  | key :: rest =>
      remapAux (i + 1) (fun k => if k = key then i else cur k)
        (fun q => if q = cur key then some i else refs q) rest

/-- The loop run from the start: store begins as the identity (each object's
`"id"` field holds its original id), `refs` begins empty. -/
def remapRun (keys : List Nat) : ((Nat → Nat) × (Nat → Option Nat)) :=
  remapAux 0 (fun k => k) (fun _ => none) keys

/-- `self.categories` after `createIndex`: the sorted selection with each
object's `"id"` field replaced by its final store value. -/
def createIndex_categories (cats : List Cat) : List Cat :=
  (selectSorted cats).map
    (fun c => ⟨(remapRun ((selectSorted cats).map (fun c => c.id))).1 c.id, c.name⟩)

/-- `self.original_category_referecences` after `createIndex`. -/
def original_category_referecences (cats : List Cat) : Nat → Option Nat :=
  (remapRun ((selectSorted cats).map (fun c => c.id))).2

/-- `self.classes` after `createIndex` (computed before the mutation loop). -/
def classesOf (cats : List Cat) : List String :=
  (selectSorted cats).map (fun c => c.name)

/-- The `"class"` entry of one bbox of `get_img_bbox_payload`. -/
structure BboxEntry where
  point : List (Int × Int)
  cls : Option Nat
  recognition : String
deriving DecidableEq

/-- The bbox list of `DatasetUploadHandler.get_img_bbox_payload` (the
`"class"` field is `original_category_referecences.get(ann["category_id"])`). -/
def get_img_bbox_entries (refs : Nat → Option Nat) (anns : List Ann) : List BboxEntry :=
  anns.map (fun a =>
    ⟨[(a.x, a.y), (a.x + a.w, a.y), (a.x + a.w, a.y + a.h), (a.x, a.y + a.h)],
      refs a.category_id, a.recognition⟩)

/-- One entry of `get_img_semantic_segmentation_payload`'s annotation list. -/
structure SemEntry where
  segmentation : List Nat
  category_id : Option Nat
deriving DecidableEq

/-- The annotation list of `get_img_semantic_segmentation_payload`. -/
def get_img_semantic_entries (refs : Nat → Option Nat) (anns : List Ann) : List SemEntry :=
  anns.map (fun a => ⟨a.segmentation, refs a.category_id⟩)

/-- Positions whose key is not in the remaining loop suffix are untouched by
the rest of the loop (distinct keys, store currently the identity on them). -/
theorem remapAux_not_mem (keys : List Nat) :
    ∀ (i : Nat) (cur : Nat → Nat) (refs : Nat → Option Nat) (q : Nat),
      keys.Nodup → (∀ k ∈ keys, cur k = k) → q ∉ keys →
        (remapAux i cur refs keys).1 q = cur q
          ∧ (remapAux i cur refs keys).2 q = refs q := by
  induction keys with
  | nil => intro i cur refs q _ _ _; exact ⟨rfl, rfl⟩
  | cons key rest ih =>
    intro i cur refs q hnd hinv hq
    rw [List.nodup_cons] at hnd
    have hqkey : q ≠ key := fun h => hq (h ▸ List.mem_cons_self key rest)
    have hqrest : q ∉ rest := fun h => hq (List.mem_cons_of_mem key h)
    have hinv' : ∀ k ∈ rest, (fun k => if k = key then i else cur k) k = k := by
      intro k hk
      have hkkey : k ≠ key := fun h => hnd.1 (h ▸ hk)
      simp only [if_neg hkkey]
      exact hinv k (List.mem_cons_of_mem key hk)
    have hckey : cur key = key := hinv key (List.mem_cons_self key rest)
    obtain ⟨h1, h2⟩ := ih (i + 1) (fun k => if k = key then i else cur k)
      (fun q => if q = cur key then some i else refs q) q hnd.2 hinv' hqrest
    refine ⟨?_, ?_⟩
    · rw [remapAux, h1, if_neg hqkey]
    · rw [remapAux, h2, hckey, if_neg hqkey]

/-- With distinct keys, the loop maps the key at position `j` to `i + j`,
both in the store and in the refs dict. -/
theorem remapAux_get (keys : List Nat) :
    ∀ (i : Nat) (cur : Nat → Nat) (refs : Nat → Option Nat),
      keys.Nodup → (∀ k ∈ keys, cur k = k) →
        ∀ j (hj : j < keys.length),
          (remapAux i cur refs keys).1 (keys.get ⟨j, hj⟩) = i + j
            ∧ (remapAux i cur refs keys).2 (keys.get ⟨j, hj⟩) = some (i + j) := by
  induction keys with
  | nil => intro i cur refs _ _ j hj; exact absurd hj (by simp)
  | cons key rest ih =>
    intro i cur refs hnd hinv j hj
    rw [List.nodup_cons] at hnd
    have hinv' : ∀ k ∈ rest, (fun k => if k = key then i else cur k) k = k := by
      intro k hk
      have hkkey : k ≠ key := fun h => hnd.1 (h ▸ hk)
      simp only [if_neg hkkey]
      exact hinv k (List.mem_cons_of_mem key hk)
    have hckey : cur key = key := hinv key (List.mem_cons_self key rest)
    match j with
    | 0 =>
        obtain ⟨h1, h2⟩ := remapAux_not_mem rest (i + 1)
          (fun k => if k = key then i else cur k)
          (fun q => if q = cur key then some i else refs q) key hnd.2 hinv' hnd.1
        refine ⟨?_, ?_⟩
        · rw [show (key :: rest).get ⟨0, hj⟩ = key from rfl, remapAux, h1]
          simp
        · rw [show (key :: rest).get ⟨0, hj⟩ = key from rfl, remapAux, h2, hckey,
            if_pos rfl, Nat.add_zero]
    | Nat.succ j' =>
        have hj' : j' < rest.length := by
          simp only [List.length_cons] at hj
          omega
        obtain ⟨h1, h2⟩ := ih (i + 1) (fun k => if k = key then i else cur k)
          (fun q => if q = cur key then some i else refs q) hnd.2 hinv' j' hj'
        refine ⟨?_, ?_⟩
        · rw [remapAux]
          rw [show (key :: rest).get ⟨j' + 1, hj⟩ = rest.get ⟨j', hj'⟩ from rfl, h1]
          omega
        · rw [remapAux]
          rw [show (key :: rest).get ⟨j' + 1, hj⟩ = rest.get ⟨j', hj'⟩ from rfl, h2]
          congr 1
          omega

theorem filterMap_map_id_of_lookup {α : Type} (key : α → Nat) :
    ∀ (l : List α) (f : Nat → Option α), (∀ c ∈ l, f (key c) = some c) →
      (l.map key).filterMap f = l := by
  intro l
  induction l with
  | nil => intro f _; rfl
  | cons c rest ih =>
    intro f hf
    rw [List.map_cons, List.filterMap_cons, hf c (List.mem_cons_self c rest),
      ih f (fun x hx => hf x (List.mem_cons_of_mem c hx))]

/-- With distinct ids the dict `self.cats` is injective on the dataset's
categories, so `loadCats(getCatIds())` returns the dataset list itself. -/
theorem loadCatsAll_nodup (cats : List Cat)
    (hnd : (cats.map (fun c => c.id)).Nodup) : loadCatsAll cats = cats := by
  unfold loadCatsAll getCatIds
  have hlk : ∀ c ∈ cats, catsIndex cats c.id = some c := by
    intro c hc
    unfold catsIndex
    exact lookupLast_nodup (fun c => c.id) cats hnd c hc
  exact filterMap_map_id_of_lookup (fun c => c.id) cats (catsIndex cats) hlk

/-- Claim C5 (amended): provided the dataset's category ids are pairwise
distinct, after `createIndex` the categories list is the dataset's categories
sorted by original id with ids remapped to the consecutive indices 0..n-1 in
that order; `original_category_referecences` maps the original id at sorted
position `j` to `j`; `classes[i]` is the name of the category assigned new id
`i`; and both payload builders emit
`original_category_referecences.get(ann["category_id"])` as the class of every
annotation. -/
theorem createIndex_categories_spec (cats : List Cat)
    (hnd : (cats.map (fun c => c.id)).Nodup) :
    createIndex_categories cats =
        (sortById cats).enum.map (fun p => (⟨p.1, p.2.name⟩ : Cat))
    ∧ (∀ j (hj : j < (sortById cats).length),
        original_category_referecences cats (((sortById cats).get ⟨j, hj⟩).id) = some j)
    ∧ classesOf cats = (createIndex_categories cats).map (fun c => c.name)
    ∧ (∀ anns : List Ann,
        (get_img_bbox_entries (original_category_referecences cats) anns).map
            (fun e => e.cls)
          = anns.map (fun a => original_category_referecences cats a.category_id))
    ∧ (∀ anns : List Ann,
        (get_img_semantic_entries (original_category_referecences cats) anns).map
            (fun e => e.category_id)
          = anns.map (fun a => original_category_referecences cats a.category_id)) := by
  have hsel : selectSorted cats = sortById cats := by
    unfold selectSorted
    rw [loadCatsAll_nodup cats hnd]
  have hperm := List.perm_insertionSort (fun a b => a.id ≤ b.id) cats
  have hnds : ((sortById cats).map (fun c => c.id)).Nodup :=
    ((hperm.map (fun c => c.id)).nodup_iff).mpr hnd
  have hget := remapAux_get ((sortById cats).map (fun c => c.id)) 0 (fun k => k)
    (fun _ => none) hnds (fun _ _ => rfl)
  refine ⟨?_, ?_, ?_, fun anns => by
      unfold get_img_bbox_entries
      rw [List.map_map]
      rfl,
    fun anns => by
      unfold get_img_semantic_entries
      rw [List.map_map]
      rfl⟩
  · unfold createIndex_categories
    rw [hsel]
    refine List.ext_getElem (by simp [List.enum_length]) ?_
    intro n h1 h2
    rw [List.length_map] at h1
    have hn : n < ((sortById cats).map (fun c => c.id)).length := by
      rw [List.length_map]
      exact h1
    have hid : ((sortById cats).map (fun c => c.id)).get ⟨n, hn⟩ =
        ((sortById cats).get ⟨n, h1⟩).id := by
      simp
    have hcur := (hget n hn).1
    rw [hid, Nat.zero_add] at hcur
    simp only [List.getElem_map, List.getElem_enum]
    simp only [List.get_eq_getElem] at hcur
    exact congrArg (fun m => ({ id := m, name := (sortById cats)[n].name } : Cat)) hcur
  · intro j hj
    unfold original_category_referecences
    rw [hsel]
    have hjn : j < ((sortById cats).map (fun c => c.id)).length := by
      rw [List.length_map]
      exact hj
    have hid : ((sortById cats).map (fun c => c.id)).get ⟨j, hjn⟩ =
        ((sortById cats).get ⟨j, hj⟩).id := by
      simp
    have hrefs := (hget j hjn).2
    rw [hid, Nat.zero_add] at hrefs
    exact hrefs
  · unfold classesOf createIndex_categories
    rw [List.map_map]
    rfl

/-- Witness for C5: two categories with ids 7 and 3 are sorted to ids 3, 7 and
remapped to 0, 1; the reference dict sends 3 ↦ 0 and 7 ↦ 1. -/
theorem createIndex_categories_spec_witness :
    createIndex_categories [⟨7, "b"⟩, ⟨3, "a"⟩] = [⟨0, "a"⟩, ⟨1, "b"⟩]
      ∧ original_category_referecences [⟨7, "b"⟩, ⟨3, "a"⟩] 7 = some 1 := by
  obtain ⟨h1, h2, -, -, -⟩ :=
    createIndex_categories_spec [⟨7, "b"⟩, ⟨3, "a"⟩] (by decide)
  constructor
  · rw [h1]
    decide
  · have h3 := h2 1 (by decide)
    rw [show ((sortById [⟨7, "b"⟩, ⟨3, "a"⟩]).get ⟨1, by decide⟩).id = 7 from rfl] at h3
    exact h3

/-- Counterexample for C5 as stated: with duplicate category ids the `self.cats`
dict keeps only the last category per id, so the categories list after
`createIndex` is NOT the dataset's categories sorted by id and remapped — for
`[{id 1, name "a"}, {id 1, name "b"}]` its names are `["b", "b"]` while the
sorted-and-remapped dataset categories have names `["a", "b"]`. -/
theorem createIndex_categories_counterexample :
    (createIndex_categories [⟨1, "a"⟩, ⟨1, "b"⟩]).map (fun c => c.name) = ["b", "b"]
      ∧ ((sortById [⟨1, "a"⟩, ⟨1, "b"⟩]).enum.map
          (fun p => (⟨p.1, p.2.name⟩ : Cat))).map (fun c => c.name) = ["a", "b"] := by
  decide

/-! ## COCO._validate (src/unitlab/dataset.py)

```python
if not os.path.isdir(self.data_path):
    raise ValueError(...)
for required_key in ["images", "annotations", "categories"]:
    if required_key not in self.dataset.keys():
        raise KeyError(...)
    if len(self.dataset[required_key]) == 0:
        raise ValueError(...)
```

The parsed JSON object is modelled by its three relevant keys, each either
absent (`none`) or a list. -/

/-- The error `_validate` raises: `ValueError` or `KeyError`, with the name of
the offending key (or `"data_path"` for the directory check). -/
inductive VErr where
  | valueErr : String → VErr
  | keyErr : String → VErr
deriving DecidableEq

/-- One iteration of the `for required_key in [...]` loop. -/
def checkRequiredKey {α : Type} (key : String) (v : Option (List α)) : Except VErr Unit :=
  match v with
  | none => Except.error (VErr.keyErr key)
  | some l => if l.length = 0 then Except.error (VErr.valueErr key) else Except.ok ()

/-- The parsed annotation file, restricted to the keys `_validate` reads:
`"images"`, `"annotations"` (field `annList`), `"categories"`. -/
structure RawDataset where
  images : Option (List Img)
  annList : Option (List Ann)
  categories : Option (List Cat)

/-- `COCO._validate`: the directory check, then the three keys in order. -/
def coco_validate (dirOk : Bool) (ds : RawDataset) : Except VErr Unit :=
  if dirOk then do
    checkRequiredKey "images" ds.images
    checkRequiredKey "annotations" ds.annList
    checkRequiredKey "categories" ds.categories
  else Except.error (VErr.valueErr "data_path")

/-- A key passes `_validate`: present, with a non-empty list. -/
def keyOk {α : Type} (v : Option (List α)) : Prop := ∃ l, v = some l ∧ l ≠ []

theorem checkRequiredKey_cases {α : Type} (key : String) (v : Option (List α)) :
    (checkRequiredKey key v = Except.ok () ∧ keyOk v)
      ∨ (checkRequiredKey key v = Except.error (VErr.keyErr key) ∧ v = none)
      ∨ (checkRequiredKey key v = Except.error (VErr.valueErr key) ∧ v = some []) := by
  match v with
  | none => exact Or.inr (Or.inl ⟨rfl, rfl⟩)
  | some [] => exact Or.inr (Or.inr ⟨rfl, rfl⟩)
  | some (x :: l) =>
      exact Or.inl ⟨by simp [checkRequiredKey], ⟨x :: l, rfl, by simp⟩⟩

/-- Claim C10 (amended): given an annotation file that parses as JSON,
construction raises `ValueError` if `data_path` is not a directory; otherwise
it scans `images`, `annotations`, `categories` in that order and raises, at
the FIRST offending key, `KeyError` if it is absent and `ValueError` if its
list is empty; construction succeeds iff all three keys are present with
non-empty lists. -/
theorem coco_validate_spec (ds : RawDataset) :
    (coco_validate false ds = Except.error (VErr.valueErr "data_path"))
    ∧ (coco_validate true ds = Except.error (VErr.keyErr "images") ↔
        ds.images = none)
    ∧ (coco_validate true ds = Except.error (VErr.valueErr "images") ↔
        ds.images = some [])
    ∧ (coco_validate true ds = Except.error (VErr.keyErr "annotations") ↔
        keyOk ds.images ∧ ds.annList = none)
    ∧ (coco_validate true ds = Except.error (VErr.valueErr "annotations") ↔
        keyOk ds.images ∧ ds.annList = some [])
    ∧ (coco_validate true ds = Except.error (VErr.keyErr "categories") ↔
        keyOk ds.images ∧ keyOk ds.annList ∧ ds.categories = none)
    ∧ (coco_validate true ds = Except.error (VErr.valueErr "categories") ↔
        keyOk ds.images ∧ keyOk ds.annList ∧ ds.categories = some [])
    ∧ (coco_validate true ds = Except.ok () ↔
        keyOk ds.images ∧ keyOk ds.annList ∧ keyOk ds.categories) := by
  obtain ⟨io, ao, co⟩ := ds
  have hrun : ∀ i a c, coco_validate true ⟨i, a, c⟩ =
      (checkRequiredKey "images" i >>= fun _ =>
        checkRequiredKey "annotations" a >>= fun _ =>
          checkRequiredKey "categories" c) := fun _ _ _ => rfl
  refine ⟨rfl, ?_⟩
  rcases checkRequiredKey_cases (α := Img) "images" io with
      ⟨hi, li, rfl, hli⟩ | ⟨hi, rfl⟩ | ⟨hi, rfl⟩ <;>
    rcases checkRequiredKey_cases (α := Ann) "annotations" ao with
        ⟨ha, la, rfl, hla⟩ | ⟨ha, rfl⟩ | ⟨ha, rfl⟩ <;>
      rcases checkRequiredKey_cases (α := Cat) "categories" co with
          ⟨hc, lc, rfl, hlc⟩ | ⟨hc, rfl⟩ | ⟨hc, rfl⟩ <;>
        simp_all [hrun, keyOk, Bind.bind, Except.bind]

/-- Counterexample for C10 as stated: with `images` present but empty and
`annotations` absent, `_validate` raises `ValueError("images")` even though a
required key is missing — so "KeyError iff a key is absent" and "ValueError
iff all three are present" both fail at this input. -/
theorem coco_validate_counterexample :
    coco_validate true ⟨some [], none, some [⟨0, "x"⟩]⟩ =
        Except.error (VErr.valueErr "images")
      ∧ (⟨some [], none, some [⟨0, "x"⟩]⟩ : RawDataset).annList = none := ⟨rfl, rfl⟩

/-! ## Per-file failure handling (src/unitlab/client.py, src/unitlab/dataset.py)

Each per-file coroutine is modelled by the status the server answers for that
file.  `aiohttp`'s `raise_for_status` raises exactly on `status ≥ 400`.

* `post_file` (client.py): the whole post and `raise_for_status` sit in a
  `try` whose `except Exception` logs and returns 0.
* `download_file` (client.py): `raise_for_status` is tried; a bad status logs
  and returns 0, a good one streams the body and returns 1.
* `DatasetUploadHandler.upload_image` (dataset.py): status 403 raises
  `SubscriptionError`, which the `except SubscriptionError: raise e` clause
  re-raises out of the coroutine; status 400 logs the body and returns 0; any
  other bad status is swallowed by `except Exception` and falls through to
  `return 0`.

The client.py pipelines are total maps over the batch (no file can abort the
others); the `upload_image` batch is a monadic map that stops at the first
`SubscriptionError`. -/

/-- `aiohttp` response success: `raise_for_status` raises iff `400 ≤ status`. -/
def aiohttpOk (s : Nat) : Bool := decide (s < 400)

/-- `project_upload_data.post_file`: 1 on success, 0 on any HTTP error. -/
def post_file (status : Nat) : Nat :=
  if aiohttpOk status then 1 else 0

/-- `dataset_download_files.download_file`: 1 on success, 0 on any HTTP error. -/
def download_file (status : Nat) : Nat :=
  if aiohttpOk status then 1 else 0

/-- `SubscriptionError` raised by `upload_image` on HTTP 403. -/
inductive SubErr where
  | sub : SubErr
deriving DecidableEq

/-- `DatasetUploadHandler.upload_image` on the response status. -/
def upload_image (status : Nat) : Except SubErr Nat :=
  if status = 403 then Except.error SubErr.sub
  else if status = 400 then Except.ok 0
  else if aiohttpOk status then Except.ok 1
  else Except.ok 0

/-- The upload batch of `project_upload_data.main`: every file is posted. -/
def run_post_batch (statuses : List Nat) : List Nat := statuses.map post_file

/-- The download batch of `dataset_download_files.main`: every file is fetched. -/
def run_download_batch (statuses : List Nat) : List Nat := statuses.map download_file

/-- A batch of `upload_image` calls: an uncaught `SubscriptionError` aborts
the remaining files. -/
def run_upload_image_batch (statuses : List Nat) : Except SubErr (List Nat) :=
  statuses.mapM upload_image

/-- Claim C7 (amended): in client.py's `post_file` and `download_file` every
HTTP error yields 0 for that file and the batch maps over all files (a
failure never aborts the rest); in `DatasetUploadHandler.upload_image` an
HTTP error other than 403 yields 0, but status 403 raises
`SubscriptionError`, which aborts the batch. -/
theorem per_file_error_handling (s : Nat) (statuses : List Nat) :
    (400 ≤ s → post_file s = 0)
    ∧ (s < 400 → post_file s = 1)
    ∧ (400 ≤ s → download_file s = 0)
    ∧ (run_post_batch statuses).length = statuses.length
    ∧ (run_download_batch statuses).length = statuses.length
    ∧ (400 ≤ s → s ≠ 403 → upload_image s = Except.ok 0)
    ∧ upload_image 403 = Except.error SubErr.sub := by
  refine ⟨?_, ?_, ?_, List.length_map _ _, List.length_map _ _, ?_, rfl⟩
  · intro h
    unfold post_file aiohttpOk
    rw [if_neg (by simpa using Nat.not_lt.mpr h)]
  · intro h
    unfold post_file aiohttpOk
    rw [if_pos (by simpa using h)]
  · intro h
    unfold download_file aiohttpOk
    rw [if_neg (by simpa using Nat.not_lt.mpr h)]
  · intro h hne
    unfold upload_image aiohttpOk
    rw [if_neg hne]
    by_cases h400 : s = 400
    · rw [if_pos h400]
    · rw [if_neg h400, if_neg (by simpa using Nat.not_lt.mpr h)]

/-- Witness for C7 (amended) at concrete statuses. -/
theorem per_file_error_handling_witness :
    post_file 500 = 0 ∧ post_file 200 = 1 ∧ download_file 404 = 0
      ∧ upload_image 500 = Except.ok 0 := by
  refine ⟨?_, ?_, ?_, ?_⟩
  · exact (per_file_error_handling 500 []).1 (by decide)
  · exact (per_file_error_handling 200 []).2.1 (by decide)
  · exact (per_file_error_handling 404 []).2.2.1 (by decide)
  · exact (per_file_error_handling 500 []).2.2.2.2.2.1 (by decide) (by decide)

/-- Counterexample for C7 as stated: a 403 on one file of an `upload_image`
batch raises `SubscriptionError` instead of returning 0, and the batch run
aborts instead of continuing with the remaining files. -/
theorem per_file_error_handling_counterexample :
    upload_image 403 = Except.error SubErr.sub
      ∧ run_upload_image_batch [201, 403, 201] = Except.error SubErr.sub :=
  ⟨rfl, rfl⟩

/-! ## UnitlabClient.dataset_download_files — skip files already on disk
(src/unitlab/client.py)

The folder `dataset-files-<dataset_id>` is an association list from file name
to contents; `os.path.isfile` is `lookupKV`-isSome; a successful download
writes the fetched body to the file's name; a failed fetch (`fetch` returns
`none`) writes nothing. -/

/-- A file entry of the server response: `{"file_name": ..., "source": ...}`. -/
structure DFile where
  file_name : String
  source : String
deriving DecidableEq

/-- The `dataset_files` list: response entries whose `file_name` is not
already a file in the folder. -/
def dataset_files_select (resp : List DFile) (disk : List (String × String)) :
    List DFile :=
  resp.filter (fun f => !(lookupKV disk f.file_name).isSome)

/-- The whole download pass: fetch each selected file and write its body. -/
def runDownloads (disk : List (String × String)) (resp : List DFile)
    (fetch : DFile → Option String) : List (String × String) :=
  (dataset_files_select resp disk).foldl
    (fun d f =>
      match fetch f with
      | none => d
      | some content => setKV d f.file_name content) disk

theorem foldl_write_preserves (name : String) (fetch : DFile → Option String) :
    ∀ (fs : List DFile) (d : List (String × String)),
      (∀ f ∈ fs, f.file_name ≠ name) →
        lookupKV (fs.foldl
            (fun d f =>
              match fetch f with
              | none => d
              | some content => setKV d f.file_name content) d) name
          = lookupKV d name := by
  intro fs
  induction fs with
  | nil => intro d _; rfl
  | cons f rest ih =>
    intro d hne
    rw [List.foldl_cons]
    have hrest : ∀ g ∈ rest, g.file_name ≠ name :=
      fun g hg => hne g (List.mem_cons_of_mem f hg)
    rw [ih _ hrest]
    match hf : fetch f with
    | none => rfl
    | some content =>
        rw [lookupKV_setKV, if_neg ?_]
        intro hc
        exact hne f (List.mem_cons_self f rest) hc.symm

/-- Claim C8: `dataset_download_files` downloads only response entries whose
`file_name` is not already a file in the folder; every file already present
is excluded from the download set and its contents are unchanged by the
whole pass. -/
theorem dataset_download_skips_existing (disk : List (String × String))
    (resp : List DFile) (fetch : DFile → Option String) :
    (∀ f ∈ resp, (lookupKV disk f.file_name).isSome →
        f ∉ dataset_files_select resp disk)
    ∧ (∀ name, (lookupKV disk name).isSome →
        lookupKV (runDownloads disk resp fetch) name = lookupKV disk name) := by
  constructor
  · intro f _ hsome hmem
    rw [dataset_files_select, List.mem_filter] at hmem
    rw [hsome] at hmem
    exact absurd hmem.2 (by simp)
  · intro name hsome
    unfold runDownloads
    refine foldl_write_preserves name fetch _ disk ?_
    intro f hf hc
    rw [dataset_files_select, List.mem_filter] at hf
    rw [hc] at hf
    rw [hsome] at hf
    exact absurd hf.2 (by simp)

/-- Witness for C8: with `old.jpg` already on disk, only `new.jpg` is
selected, and `old.jpg`'s contents survive the pass. -/
theorem dataset_download_skips_existing_witness :
    (⟨"old.jpg", "src1"⟩ : DFile) ∉
        dataset_files_select [⟨"old.jpg", "src1"⟩, ⟨"new.jpg", "src2"⟩]
          [("old.jpg", "data")]
      ∧ lookupKV (runDownloads [("old.jpg", "data")]
            [⟨"old.jpg", "src1"⟩, ⟨"new.jpg", "src2"⟩] (fun _ => some "body"))
          "old.jpg" = lookupKV [("old.jpg", "data")] "old.jpg" := by
  constructor
  · exact (dataset_download_skips_existing [("old.jpg", "data")]
      [⟨"old.jpg", "src1"⟩, ⟨"new.jpg", "src2"⟩] (fun _ => some "body")).1
      ⟨"old.jpg", "src1"⟩ (by simp) (by decide)
  · exact (dataset_download_skips_existing [("old.jpg", "data")]
      [⟨"old.jpg", "src1"⟩, ⟨"new.jpg", "src2"⟩] (fun _ => some "body")).2
      "old.jpg" (by decide)

/-! ## _config.write_config (src/unitlab/_config.py)

The `default` section of the credentials file is an association list;
`ConfigParser.read` loads it, `ConfigParser.set` replaces a key in place or
appends it, and the whole section is rewritten to the file.  A missing
credentials file is the empty section. -/

/-- `write_config(api_key=..., api_url=...)`: read the existing section, set
only the arguments that are not None, write everything back. -/
def write_config (existing : List (String × String))
    (api_key api_url : Option String) : List (String × String) :=
  let s1 := match api_key with
    | some v => setKV existing "api_key" v
    | none => existing
  match api_url with
  | some v => setKV s1 "api_url" v
  | none => s1

/-- Claim C9: `write_config` preserves unspecified credentials: with only
`api_key` given the new file holds the new `api_key` while `api_url` and
every other key of the `default` section keep their old values, and
symmetrically with only `api_url` given. -/
theorem write_config_preserves (s : List (String × String)) (k u q : String) :
    (lookupKV (write_config s (some k) none) "api_key" = some k)
    ∧ (q ≠ "api_key" → lookupKV (write_config s (some k) none) q = lookupKV s q)
    ∧ (lookupKV (write_config s none (some u)) "api_url" = some u)
    ∧ (q ≠ "api_url" → lookupKV (write_config s none (some u)) q = lookupKV s q) := by
  refine ⟨?_, ?_, ?_, ?_⟩
  · rw [show write_config s (some k) none = setKV s "api_key" k from rfl,
      lookupKV_setKV, if_pos rfl]
  · intro hq
    rw [show write_config s (some k) none = setKV s "api_key" k from rfl,
      lookupKV_setKV, if_neg hq]
  · rw [show write_config s none (some u) = setKV s "api_url" u from rfl,
      lookupKV_setKV, if_pos rfl]
  · intro hq
    rw [show write_config s none (some u) = setKV s "api_url" u from rfl,
      lookupKV_setKV, if_neg hq]

/-- Witness for C9: rewriting only the api_key keeps the stored api_url and
an unrelated key. -/
theorem write_config_preserves_witness :
    lookupKV (write_config [("api_key", "old"), ("api_url", "u0"), ("team", "t")]
        (some "new") none) "api_key" = some "new"
      ∧ lookupKV (write_config [("api_key", "old"), ("api_url", "u0"), ("team", "t")]
          (some "new") none) "api_url" = some "u0"
      ∧ lookupKV (write_config [("api_key", "old"), ("api_url", "u0"), ("team", "t")]
          (some "new") none) "team" = some "t" := by
  have h := write_config_preserves [("api_key", "old"), ("api_url", "u0"), ("team", "t")]
    "new" "unused" "api_url"
  have h2 := write_config_preserves [("api_key", "old"), ("api_url", "u0"), ("team", "t")]
    "new" "unused" "team"
  refine ⟨h.1, ?_, ?_⟩
  · rw [h.2.1 (by decide)]
    rfl
  · rw [h2.2.1 (by decide)]
    rfl

end Unitlab
